import Mathlib

/-!
Verification development for the viewport evaluation and comparison pipeline
of the cursor-cli-demo repository.

The development shallowly embeds the pure computational core of
`src/examples/viewport-test.ts` and `src/examples/full-workflow.ts`:

* a JSON value model together with a text encoder and a fueled decoder,
  standing in for the JavaScript builtins `JSON.stringify` / `JSON.parse`
  that the repository calls (the decoder covers the object/array/string/
  integer/boolean/null fragment those call sites exercise);
* the greedy brace-span extraction `rawResponse.match` with the regex
  "first `\x7b` to last `\x7d`" plus the `parsed.evaluations || []`
  fallback, shared verbatim by `evaluateScreenshots` (viewport-test) and
  `evaluateWithAgent` (full-workflow);
* the accessibility heuristic engine `analyzeAccessibility` of
  viewport-test, over a flat document model of elements;
* the per-device capture loop of `takeMultiViewportScreenshots`, with the
  browser interaction abstracted as a per-device effect;
* the comparison computations of `generateComparisonReport` in
  full-workflow: status icons, fixed/remaining issue lists, and the
  readiness verdict.
-/

/-! ## JSON value model -/

/-- The opening curly brace character. -/
def lbrace : Char := Char.ofNat 123

/-- The closing curly brace character. -/
def rbrace : Char := Char.ofNat 125

mutual

/-- A JSON value, as produced by the JavaScript `JSON.parse` builtin on the
fragment of JSON the repository exchanges with the agent (objects, arrays,
strings, integers, booleans, null). -/
inductive Json where
  | null : Json
  | bool (b : Bool) : Json
  | num (n : Int) : Json
  | str (s : String) : Json
  | arr (xs : JsonArr) : Json
  | obj (fs : JsonObj) : Json

/-- A sequence of JSON values (the elements of a JSON array). -/
inductive JsonArr where
  | nil : JsonArr
  | cons (hd : Json) (tl : JsonArr) : JsonArr

/-- The ordered fields of a JSON object, key insertion order preserved. -/
inductive JsonObj where
  | nil : JsonObj
  | cons (k : String) (v : Json) (tl : JsonObj) : JsonObj

end

/-! ## JSON text encoding (model of `JSON.stringify`) -/

/-- Escaping of a single character inside a JSON string literal. -/
def escChar (c : Char) : List Char :=
  if c = '"' then ['\\', '"']
  else if c = '\\' then ['\\', '\\']
  else if c = '\n' then ['\\', 'n']
  else if c = '\t' then ['\\', 't']
  else if c = '\r' then ['\\', 'r']
  else [c]

/-- Escaping of every character of a string body in order. -/
def escList : List Char → List Char
  | [] => []
  | c :: cs => escChar c ++ escList cs

/-- A JSON string literal: quote, escaped characters, quote. -/
def printStr (s : String) : List Char :=
  '"' :: escList s.toList ++ ['"']

/-- Decimal digits of a natural number, most significant first. -/
def printNat (n : Nat) : List Char :=
  if n = 0 then ['0'] else (Nat.digits 10 n).reverse.map Nat.digitChar

/-- Decimal rendering of an integer. -/
def printInt (n : Int) : List Char :=
  if n < 0 then '-' :: printNat n.natAbs else printNat n.natAbs

/-- The characters of the `null` keyword. -/
def nullChars : List Char := ['n', 'u', 'l', 'l']

/-- The characters of the `true` keyword. -/
def trueChars : List Char := ['t', 'r', 'u', 'e']

/-- The characters of the `false` keyword. -/
def falseChars : List Char := ['f', 'a', 'l', 's', 'e']

mutual

/-- Compact JSON text of a value, as `JSON.stringify` emits it. -/
def printJson : Json → List Char
  | .null => nullChars
  | .bool true => trueChars
  | .bool false => falseChars
  | .num n => printInt n
  | .str s => printStr s
  | .arr .nil => ['[', ']']
  | .arr (.cons hd tl) => '[' :: (printJson hd ++ printArrTail tl) ++ [']']
  | .obj .nil => [lbrace, rbrace]
  | .obj (.cons k v tl) => lbrace :: (printField k v ++ printObjTail tl) ++ [rbrace]

/-- Remaining array elements, each preceded by a comma. -/
def printArrTail : JsonArr → List Char
  | .nil => []
  | .cons hd tl => ',' :: printJson hd ++ printArrTail tl

/-- One object field: quoted key, colon, value. -/
def printField (k : String) (v : Json) : List Char :=
  printStr k ++ ':' :: printJson v

/-- Remaining object fields, each preceded by a comma. -/
def printObjTail : JsonObj → List Char
  | .nil => []
  | .cons k v tl => ',' :: printField k v ++ printObjTail tl

end

/-! ## JSON parser (model of `JSON.parse`) -/

/-- JSON insignificant whitespace. -/
def isWs (c : Char) : Bool :=
  c = ' ' || c = '\n' || c = '\t' || c = '\r'

/-- Drop leading whitespace. -/
def skipWs : List Char → List Char
  | [] => []
  | c :: cs => if isWs c then skipWs cs else c :: cs

/-- Inverse of the escape table used while reading a string literal. -/
def unescChar (e : Char) : Option Char :=
  if e = '"' then some '"'
  else if e = '\\' then some '\\'
  else if e = '/' then some '/'
  else if e = 'n' then some '\n'
  else if e = 't' then some '\t'
  else if e = 'r' then some '\r'
  else if e = 'b' then some (Char.ofNat 8)
  else if e = 'f' then some (Char.ofNat 12)
  else none

mutual

/-- Read the body of a string literal (opening quote already consumed);
returns the decoded characters and the text after the closing quote. -/
def parseStrAux : List Char → Option (List Char × List Char)
  | [] => none
  | c :: cs =>
    if c = '"' then some ([], cs)
    else if c = '\\' then parseStrEsc cs
    else
      match parseStrAux cs with
      | some (body, rest) => some (c :: body, rest)
      | none => none

/-- Read the character after a backslash inside a string literal. -/
def parseStrEsc : List Char → Option (List Char × List Char)
  | [] => none
  | e :: cs =>
    match unescChar e with
    | some u =>
      match parseStrAux cs with
      | some (body, rest) => some (u :: body, rest)
      | none => none
    | none => none

end

/-- Value of a big-endian list of decimal digit characters. -/
def digitsVal (ds : List Char) : Nat :=
  ds.foldl (fun a c => a * 10 + (c.toNat - 48)) 0

/-- Read a maximal nonempty run of decimal digits. -/
def parseNatCs (cs : List Char) : Option (Nat × List Char) :=
  let ds := cs.takeWhile Char.isDigit
  if ds.isEmpty then none else some (digitsVal ds, cs.dropWhile Char.isDigit)

/-- Read an optionally negated integer literal. -/
def parseNumCs : List Char → Option (Int × List Char)
  | [] => none
  | c :: cs =>
    if c = '-' then (parseNatCs cs).map (fun p => (-(p.1 : Int), p.2))
    else (parseNatCs (c :: cs)).map (fun p => ((p.1 : Int), p.2))

mutual

/-- Fueled recursive-descent JSON reader: one value, then the rest of the
text. -/
def parseValue : Nat → List Char → Option (Json × List Char)
  | 0, _ => none
  | fuel + 1, cs =>
    match skipWs cs with
    | [] => none
    | c :: cs' =>
      if c = 'n' then
        match cs' with
        | 'u' :: 'l' :: 'l' :: rest => some (Json.null, rest)
        | _ => none
      else if c = 't' then
        match cs' with
        | 'r' :: 'u' :: 'e' :: rest => some (Json.bool true, rest)
        | _ => none
      else if c = 'f' then
        match cs' with
        | 'a' :: 'l' :: 's' :: 'e' :: rest => some (Json.bool false, rest)
        | _ => none
      else if c = '"' then
        match parseStrAux cs' with
        | some (body, rest) => some (Json.str (String.mk body), rest)
        | none => none
      else if c = '[' then
        match skipWs cs' with
        | [] => none
        | c2 :: rest2 =>
          if c2 = ']' then some (Json.arr JsonArr.nil, rest2)
          else
            match parseArrItems fuel (c2 :: rest2) with
            | some (xs, rest) => some (Json.arr xs, rest)
            | none => none
      else if c = lbrace then
        match skipWs cs' with
        | [] => none
        | c2 :: rest2 =>
          if c2 = rbrace then some (Json.obj JsonObj.nil, rest2)
          else
            match parseObjItems fuel (c2 :: rest2) with
            | some (fs, rest) => some (Json.obj fs, rest)
            | none => none
      else if c = '-' || c.isDigit then
        match parseNumCs (c :: cs') with
        | some (n, rest) => some (Json.num n, rest)
        | none => none
      else none

/-- Read the elements of a nonempty array body up to the closing bracket. -/
def parseArrItems : Nat → List Char → Option (JsonArr × List Char)
  | 0, _ => none
  | fuel + 1, cs =>
    match parseValue fuel cs with
    | some (v, rest) =>
      match skipWs rest with
      | [] => none
      | c :: rest' =>
        if c = ',' then
          match parseArrItems fuel rest' with
          | some (tl, rest'') => some (JsonArr.cons v tl, rest'')
          | none => none
        else if c = ']' then some (JsonArr.cons v JsonArr.nil, rest')
        else none
    | none => none

/-- Read the fields of a nonempty object body up to the closing brace. -/
def parseObjItems : Nat → List Char → Option (JsonObj × List Char)
  | 0, _ => none
  | fuel + 1, cs =>
    match skipWs cs with
    | [] => none
    | c :: cs' =>
      if c = '"' then
        match parseStrAux cs' with
        | some (kbody, rest) =>
          match skipWs rest with
          | [] => none
          | c2 :: rest' =>
            if c2 = ':' then
              match parseValue fuel rest' with
              | some (v, rest'') =>
                match skipWs rest'' with
                | [] => none
                | c3 :: rest3 =>
                  if c3 = ',' then
                    match parseObjItems fuel rest3 with
                    | some (tl, rest4) =>
                      some (JsonObj.cons (String.mk kbody) v tl, rest4)
                    | none => none
                  else if c3 = rbrace then
                    some (JsonObj.cons (String.mk kbody) v JsonObj.nil, rest3)
                  else none
              | none => none
            else none
        | none => none
      else none

end

/-- Model of `JSON.parse` on a whole text: one value and nothing but trailing
whitespace after it. -/
def jsonParse (s : String) : Option Json :=
  match parseValue (s.length + 1) s.toList with
  | some (v, rest) => if skipWs rest = [] then some v else none
  | none => none

/-! ## Greedy brace-span extraction and the evaluation fallback

Model of the shared tail of `evaluateScreenshots` (viewport-test.ts,
lines 426-438) and `evaluateWithAgent` (full-workflow.ts, lines 253-264):

  const jsonMatch = rawResponse.match of the greedy regex;
  if (jsonMatch) { parsed = JSON.parse(jsonMatch[0]);
                   evaluations = parsed.evaluations || []; }
  return { evaluations, rawResponse };
-/

/-- The greedy regex match: the span from the first `\x7b` to the last
`\x7d`, when the former strictly precedes the latter; otherwise no match. -/
def braceSpanList (cs : List Char) : Option (List Char) :=
  match cs.findIdx? (· == lbrace), cs.reverse.findIdx? (· == rbrace) with
  | some i, some jr =>
    let j := cs.length - 1 - jr
    if i < j then some ((cs.drop i).take (j - i + 1)) else none
  | _, _ => none

/-- String form of the greedy brace-span match. -/
def braceSpan (s : String) : Option String :=
  (braceSpanList s.toList).map String.mk

/-- JavaScript member access `v.evaluations` on a decoded JSON value:
a field of an object (on duplicate keys `JSON.parse` keeps the last),
`undefined` (`none`) otherwise. -/
def objLookup : JsonObj → String → Option Json
  | .nil, _ => none
  | .cons k v tl, key =>
    match objLookup tl key with
    | some r => some r
    | none => if k = key then some v else none

/-- Field access on an arbitrary JSON value. -/
def jsonField : Json → String → Option Json
  | .obj fs, key => objLookup fs key
  | _, _ => none

/-- JavaScript truthiness of a JSON value. -/
def jsTruthy : Json → Bool
  | .null => false
  | .bool b => b
  | .num n => n != 0
  | .str s => s != ""
  | .arr _ => true
  | .obj _ => true

/-- The empty evaluations fallback `[]`. -/
def emptyEvals : Json := Json.arr JsonArr.nil

/-- The `evaluations` value recovered from a raw agent response: greedy
brace span, `JSON.parse` of the span, then `parsed.evaluations || []`;
every failure collapses to the empty list. -/
def extractEvaluations (raw : String) : Json :=
  match braceSpan raw with
  | none => emptyEvals
  | some span =>
    match jsonParse span with
    | none => emptyEvals
    | some parsed =>
      match jsonField parsed "evaluations" with
      | none => emptyEvals
      | some v => if jsTruthy v then v else emptyEvals

/-- The pair `\x7b evaluations, rawResponse \x7d` that both evaluation
functions return: the extracted evaluations next to the untouched raw
response text. -/
def parseEvaluations (rawResponse : String) : Json × String :=
  (extractEvaluations rawResponse, rawResponse)

/-- The text `JSON.stringify` produces for an object
`\x7b evaluations: [...] \x7d` holding a given evaluations array. -/
def serializeEvaluations (es : JsonArr) : String :=
  String.mk (printJson (Json.obj (JsonObj.cons "evaluations" (Json.arr es) JsonObj.nil)))

/-- The spec's end-to-end parsing scenario text: JSON wrapped in prose. -/
def scenarioResponse : String :=
  "Here you go:\n\x7b\"evaluations\":[\x7b\"device\":\"A\",\"status\":\"good\"\x7d]\x7d Thanks!"


/-- The text does not begin with a decimal digit (so it cannot extend a
number literal). -/
def noDigitHead (cs : List Char) : Prop :=
  ∀ c, cs.head? = some c → c.isDigit = false

mutual

/-- Node count of a JSON value, a lower bound for the parsing fuel. -/
def jsize : Json → Nat
  | .null => 1
  | .bool _ => 1
  | .num _ => 1
  | .str _ => 1
  | .arr xs => 1 + jsizeA xs
  | .obj fs => 1 + jsizeO fs

/-- Node count of the elements of a JSON array. -/
def jsizeA : JsonArr → Nat
  | .nil => 0
  | .cons hd tl => 1 + jsize hd + jsizeA tl

/-- Node count of the fields of a JSON object. -/
def jsizeO : JsonObj → Nat
  | .nil => 0
  | .cons _ v tl => 1 + jsize v + jsizeO tl

end

/-! ## Device profiles (the registries of both tools) -/

/-- A browser viewport configuration, as passed to `page.setViewport`. -/
structure Viewport where
  width : Nat
  height : Nat
  deviceScaleFactor : Nat
  isMobile : Bool
  hasTouch : Bool
deriving DecidableEq

/-- A device profile of the registry: name, viewport, optional user agent. -/
structure DeviceConfig where
  name : String
  viewport : Viewport
  userAgent : Option String := none
deriving DecidableEq

/-- The iPhone user-agent string of the `USER_AGENTS` table. -/
def iPhoneUserAgent : String :=
  "Mozilla/5.0 (iPhone; CPU iPhone OS 17_0 like Mac OS X) AppleWebKit/605.1.15 (KHTML, like Gecko) Version/17.0 Mobile/15E148 Safari/604.1"

/-- The Android user-agent string of the `USER_AGENTS` table. -/
def androidUserAgent : String :=
  "Mozilla/5.0 (Linux; Android 14; Pixel 7) AppleWebKit/537.36 (KHTML, like Gecko) Chrome/120.0.0.0 Mobile Safari/537.36"

namespace ViewportTest

/-- The fixed device registry of viewport-test.ts (lines 49-92). -/
def DEVICES : List DeviceConfig :=
  [⟨"iPhone 15 Pro", ⟨393, 852, 1, true, true⟩, some iPhoneUserAgent⟩,
   ⟨"Android (Pixel 7)", ⟨412, 915, 1, true, true⟩, some androidUserAgent⟩,
   ⟨"Laptop 13-inch (1600x900)", ⟨1600, 900, 1, false, false⟩, none⟩,
   ⟨"Ultrawide (2560x1080)", ⟨2560, 1080, 1, false, false⟩, none⟩]

/-! ## Document model for the in-page accessibility probe

The probe script of `analyzeAccessibility` (viewport-test.ts lines 206-269)
queries the DOM with `querySelectorAll`, reads attributes, ids, text content
and bounding boxes.  The document is modelled as a flat list of elements in
document order; `getBoundingClientRect` dimensions are modelled as integers. -/

/-- One element of the probed document. -/
structure Element where
  tag : String
  attrs : List (String × String)
  textContent : String := ""
  width : Int := 0
  height : Int := 0
deriving DecidableEq

/-- Model of `el.getAttribute(name)`: the attribute value or null. -/
def getAttribute (el : Element) (name : String) : Option String :=
  (el.attrs.find? (fun p => p.1 == name)).map (fun p => p.2)

/-- JavaScript truthiness of `el.getAttribute(name)`: present and nonempty. -/
def attrTruthy (el : Element) (name : String) : Bool :=
  match getAttribute el name with
  | some s => s != ""
  | none => false

/-- The `id` property: the id attribute, or the empty string. -/
def idOf (el : Element) : String :=
  (getAttribute el "id").getD ""

/-- The raw results collected inside the page by the probe script. -/
structure A11yCheckResults where
  missingAltText : List String
  smallTouchTargets : List String
  missingLabels : List String
  missingLandmarks : Bool
  missingHeadings : Bool
deriving DecidableEq

/-- Sample text pushed for an image: `img.src.slice(-50)`. -/
def srcSample (el : Element) : String :=
  (((getAttribute el "src").getD "")).takeRight 50

/-- The image check: `!img.alt && !img.getAttribute("aria-label")`. -/
def missingAltList (dom : List Element) : List String :=
  (dom.filter (fun el => el.tag == "img")).filterMap
    (fun img =>
      if !(attrTruthy img "alt") && !(attrTruthy img "aria-label") then some (srcSample img)
      else none)

/-- The touch-target selector `button, a, input, select, [role='button']`. -/
def interactiveElement (el : Element) : Bool :=
  el.tag == "button" || el.tag == "a" || el.tag == "input" || el.tag == "select" ||
    (getAttribute el "role" == some "button")

/-- Sample text for a touch target:
`el.textContent?.slice(0, 30) || el.getAttribute("aria-label") || "unknown"`. -/
def touchTargetText (el : Element) : String :=
  if el.textContent.take 30 != "" then el.textContent.take 30
  else if attrTruthy el "aria-label" then (getAttribute el "aria-label").getD ""
  else "unknown"

/-- Interactive elements whose rendered box is under 44x44. -/
def smallTouchList (dom : List Element) : List String :=
  (dom.filter (fun el => interactiveElement el)).filterMap
    (fun el =>
      if decide (el.width < 44) || decide (el.height < 44) then some (touchTargetText el)
      else none)

/-- The form-control selector `input, select, textarea`. -/
def isFormControl (el : Element) : Bool :=
  el.tag == "input" || el.tag == "select" || el.tag == "textarea"

/-- Model of the check `id && document.querySelector('label[for=id]')`. -/
def hasLabelFor (dom : List Element) (el : Element) : Bool :=
  (idOf el != "") &&
    dom.any (fun l => l.tag == "label" && (getAttribute l "for" == some (idOf el)))

/-- Sample text for an unlabelled control:
`input.getAttribute("name") || input.getAttribute("type") || "unknown"`. -/
def labelSampleText (el : Element) : String :=
  if attrTruthy el "name" then (getAttribute el "name").getD ""
  else if attrTruthy el "type" then (getAttribute el "type").getD ""
  else "unknown"

/-- Form controls with no label mechanism: no `label[for]` matching the id,
no aria-label, no aria-labelledby. -/
def missingLabelList (dom : List Element) : List String :=
  (dom.filter (fun el => isFormControl el)).filterMap
    (fun el =>
      if !(hasLabelFor dom el) && !(attrTruthy el "aria-label") &&
          !(attrTruthy el "aria-labelledby") then some (labelSampleText el)
      else none)

/-- Model of `document.querySelector("main, [role='main']")` as a boolean. -/
def hasMain (dom : List Element) : Bool :=
  dom.any (fun el => el.tag == "main" || (getAttribute el "role" == some "main"))

/-- Model of `document.querySelector("nav, [role='navigation']")` as a boolean. -/
def hasNav (dom : List Element) : Bool :=
  dom.any (fun el => el.tag == "nav" || (getAttribute el "role" == some "navigation"))

/-- Model of `document.querySelectorAll("h1, h2, h3, h4, h5, h6").length === 0`. -/
def noHeadings (dom : List Element) : Bool :=
  !(dom.any (fun el => el.tag == "h1" || el.tag == "h2" || el.tag == "h3" ||
      el.tag == "h4" || el.tag == "h5" || el.tag == "h6"))

/-- The in-page probe script of `analyzeAccessibility`, lines 213-269. -/
def runA11yChecks (dom : List Element) (isMobile : Bool) : A11yCheckResults :=
  ⟨missingAltList dom,
   if isMobile then smallTouchList dom else [],
   missingLabelList dom,
   !(hasMain dom) || !(hasNav dom),
   noHeadings dom⟩

/-- One typed accessibility finding. -/
structure AccessibilityIssue where
  type : String
  description : String
  element : Option String := none
  suggestion : Option String := none
deriving DecidableEq

/-- The conversion of probe results to findings, lines 271-319: a fixed rule
order, each finding emitted only when its trigger is nonempty or true. -/
def analyzeAccessibility (dom : List Element) (device : DeviceConfig) :
    List AccessibilityIssue :=
  let checks := runA11yChecks dom device.viewport.isMobile
  (if 0 < checks.missingAltText.length then
    [⟨"missing-alt-text",
      toString checks.missingAltText.length ++ " images missing alt text",
      some (String.intercalate ", " (checks.missingAltText.take 3)),
      some "Add descriptive alt=\"\" attributes to all images"⟩]
  else []) ++
  (if 0 < checks.smallTouchTargets.length then
    [⟨"small-touch-target",
      toString checks.smallTouchTargets.length ++
        " interactive elements below 44x44px minimum",
      some (String.intercalate ", " (checks.smallTouchTargets.take 3)),
      some "Increase min-width and min-height to 44px for touch targets"⟩]
  else []) ++
  (if 0 < checks.missingLabels.length then
    [⟨"missing-label",
      toString checks.missingLabels.length ++ " form inputs missing accessible labels",
      some (String.intercalate ", " (checks.missingLabels.take 3)),
      some "Add <label> elements or aria-label attributes to form inputs"⟩]
  else []) ++
  (if checks.missingLandmarks then
    [⟨"missing-landmarks", "Page missing main structural landmarks", none,
      some "Add <main>, <nav>, <header>, <footer> elements for screen reader navigation"⟩]
  else []) ++
  (if checks.missingHeadings then
    [⟨"missing-headings", "Page has no heading elements", none,
      some "Add hierarchical headings (h1-h6) for document structure and screen reader navigation"⟩]
  else [])

/-- The finding kinds `analyzeAccessibility` emits, in rule order, each
present exactly when its trigger condition holds. -/
def findingTypes (checks : A11yCheckResults) : List String :=
  (if 0 < checks.missingAltText.length then ["missing-alt-text"] else []) ++
  (if 0 < checks.smallTouchTargets.length then ["small-touch-target"] else []) ++
  (if 0 < checks.missingLabels.length then ["missing-label"] else []) ++
  (if checks.missingLandmarks then ["missing-landmarks"] else []) ++
  (if checks.missingHeadings then ["missing-headings"] else [])

/-! ## The capture loop of `takeMultiViewportScreenshots` (lines 110-196) -/

/-- One capture record: device name, screenshot file name, viewport, and the
accessibility findings when the audit ran. -/
structure ScreenshotResult where
  device : String
  filename : String
  viewport : Viewport
  accessibilityIssues : Option (List AccessibilityIssue) := none
deriving DecidableEq

/-- Model of `device.name.toLowerCase().replace(/[^a-z0-9]/g, "-")`. -/
def safeName (s : String) : String :=
  String.mk (s.toLower.toList.map (fun c => if c.isLower || c.isDigit then c else '-'))

/-- The sequential capture loop: one browser page per device in registry
order; navigation failures are swallowed inside `capture`, which stands for
the per-device browser interaction (screenshot and optional audit). -/
def takeMultiViewportScreenshots (devices : List DeviceConfig)
    (audit : DeviceConfig → Option (List AccessibilityIssue)) : List ScreenshotResult :=
  devices.map (fun d => ⟨d.name, safeName d.name ++ ".png", d.viewport, audit d⟩)

end ViewportTest

namespace FullWorkflow

/-- The fixed device registry of full-workflow.ts (lines 44-63). -/
def DEVICES : List DeviceConfig :=
  [⟨"iPhone 15 Pro", ⟨393, 852, 1, true, true⟩, some iPhoneUserAgent⟩,
   ⟨"Android (Pixel 7)", ⟨412, 915, 1, true, true⟩, some androidUserAgent⟩,
   ⟨"Laptop 13-inch", ⟨1600, 900, 1, false, false⟩, none⟩,
   ⟨"Ultrawide", ⟨2560, 1080, 1, false, false⟩, none⟩]

/-- A parsed per-device evaluation (full-workflow.ts lines 73-81).  The
`issues` and `suggestions` sequences and `accessibility_status` come from
unvalidated agent JSON, so the comparison code guards each access
(`beforeEval.issues?.`, `e.suggestions || []`); they are therefore modelled
as optional. -/
structure DeviceEvaluation where
  device : String
  resolution : String := ""
  status : String
  feedback : String := ""
  issues : Option (List String) := none
  suggestions : Option (List String) := none
  accessibility_status : Option String := none
deriving DecidableEq

/-- Model of `evals.find(e => e.device === name)`: the evaluation matched to a device
by name, `undefined` (`none`) when the agent omitted the device. -/
def findEval (evals : List DeviceEvaluation) (name : String) : Option DeviceEvaluation :=
  evals.find? (fun e => e.device == name)

/-- The status icon of the comparison report (lines 376-377):
`e?.status === "good" ? ok : e?.status === "minor_issues" ? warn : cross`. -/
def statusIcon (e : Option DeviceEvaluation) : String :=
  if e.map DeviceEvaluation.status = some "good" then "✅"
  else if e.map DeviceEvaluation.status = some "minor_issues" then "⚠️"
  else "❌"

/-- The rendered `before → after` status transition line (line 381). -/
def statusTransition (b a : Option DeviceEvaluation) : String :=
  statusIcon b ++ " → " ++ statusIcon a

/-- Model of `afterIssues?.includes(issue)`: undefined short-circuits to a falsy
result. -/
def includesOpt (xs : Option (List String)) (i : String) : Bool :=
  match xs with
  | some l => l.contains i
  | none => false

/-- Model of `beforeEval.issues?.filter(issue => not afterEval.issues?.includes(issue))`
(lines 397-399): the issues of the before-evaluation absent from the
after-evaluation's issues. -/
def fixedIssues (beforeIssues afterIssues : Option (List String)) : Option (List String) :=
  beforeIssues.map (fun bs => bs.filter (fun i => !(includesOpt afterIssues i)))

/-- The remaining issues shown for a device (lines 408-411): the
after-evaluation's issues verbatim. -/
def remainingIssues (afterIssues : Option (List String)) : Option (List String) :=
  afterIssues

/-- Spec-side definition, following the spec's words: the exact-string
members of `before.issues` not present in `after.issues`. -/
def fixedIssuesSpec (bs as : List String) : List String :=
  bs.filter (fun i => decide (i ∉ as))

/-- The filter deciding the readiness verdict (lines 446-448):
`afterEvals.filter(e => e.status !== "good" || e.accessibility_status !== "good")`. -/
def remainingEvals (afterEvals : List DeviceEvaluation) : List DeviceEvaluation :=
  afterEvals.filter
    (fun e => (e.status != "good") || (e.accessibility_status != some "good"))

/-- The overall readiness verdict (line 450): the report prints "All
viewports now pass! Ready to create a PR." exactly when the filtered list
is empty. -/
def overallReady (afterEvals : List DeviceEvaluation) : Bool :=
  (remainingEvals afterEvals).length == 0

/-- Spec-side reading of one device for the readiness claim: if the device
has an after-evaluation, its status is `good` and its accessibility status
is absent or `good`. -/
def afterOkPerClaim (afterEvals : List DeviceEvaluation) (name : String) : Bool :=
  match findEval afterEvals name with
  | some e =>
    e.status == "good" &&
      (e.accessibility_status == none || e.accessibility_status == some "good")
  | none => true

/-- Spec-side reading: the device has an after-evaluation at all. -/
def hasAfterEval (afterEvals : List DeviceEvaluation) (name : String) : Bool :=
  (findEval afterEvals name).isSome

/-- The readiness claim exactly as the spec states it: `overallReady` is
true iff every device with an after-evaluation has status good with absent
or good accessibility status, and no device lacks an after-evaluation. -/
def overallReadySpecClaim (afterEvals : List DeviceEvaluation) : Prop :=
  overallReady afterEvals = true ↔
    ((∀ d ∈ DEVICES, afterOkPerClaim afterEvals d.name = true) ∧
     (∀ d ∈ DEVICES, hasAfterEval afterEvals d.name = true))

/-- The spec's claim that an absent evaluation is presented as a state
distinct from broken. -/
def distinctUnknownClaim : Prop :=
  ∀ e : DeviceEvaluation, e.status = "broken" → statusIcon none ≠ statusIcon (some e)

end FullWorkflow

/-! ## Round-trip lemmas: the decoder inverts the encoder -/

lemma skipWs_cons {c : Char} (h : isWs c = false) (cs : List Char) :
    skipWs (c :: cs) = c :: cs := by
  simp [skipWs, h]

lemma string_mk_toList (s : String) : String.mk s.toList = s := rfl

/-- A decimal digit character is none of the parser's structural
characters. -/
lemma digit_props {c : Char} (h : c.isDigit = true) :
    isWs c = false ∧ c ≠ 'n' ∧ c ≠ 't' ∧ c ≠ 'f' ∧ c ≠ '"' ∧ c ≠ '[' ∧
      c ≠ lbrace ∧ c ≠ ']' ∧ c ≠ rbrace ∧ c ≠ ',' ∧ c ≠ '-' ∧ c ≠ ':' := by
  refine ⟨?_, ?_, ?_, ?_, ?_, ?_, ?_, ?_, ?_, ?_, ?_, ?_⟩
  · cases hw : isWs c with
    | false => rfl
    | true =>
      exfalso
      simp only [isWs, Bool.or_eq_true, decide_eq_true_eq] at hw
      rcases hw with ((rfl | rfl) | rfl) | rfl <;> exact absurd h (by decide)
  all_goals (intro he; subst he; exact absurd h (by decide))

lemma parseStrAux_esc (l : List Char) (rest : List Char) :
    parseStrAux (escList l ++ '"' :: rest) = some (l, rest) := by
  induction l with
  | nil => simp [escList, parseStrAux]
  | cons c l ih =>
    by_cases h1 : c = '"'
    · subst h1
      simp [escList, escChar, parseStrAux, parseStrEsc, unescChar, ih]
    · by_cases h2 : c = '\\'
      · subst h2
        simp [escList, escChar, parseStrAux, parseStrEsc, unescChar, ih]
      · by_cases h3 : c = '\n'
        · subst h3
          simp [escList, escChar, parseStrAux, parseStrEsc, unescChar, ih]
        · by_cases h4 : c = '\t'
          · subst h4
            simp [escList, escChar, parseStrAux, parseStrEsc, unescChar, ih]
          · by_cases h5 : c = '\r'
            · subst h5
              simp [escList, escChar, parseStrAux, parseStrEsc, unescChar, ih]
            · have he : escChar c = [c] := by simp [escChar, h1, h2, h3, h4, h5]
              rw [show escList (c :: l) = escChar c ++ escList l from rfl, he]
              rw [show ([c] ++ escList l) ++ '"' :: rest = c :: (escList l ++ '"' :: rest) from by simp]
              simp only [parseStrAux]
              rw [if_neg h1, if_neg h2, ih]

lemma digitChar_isDigit {d : Nat} (h : d < 10) : (Nat.digitChar d).isDigit = true := by
  interval_cases d <;> decide

lemma digitChar_val {d : Nat} (h : d < 10) : (Nat.digitChar d).toNat - 48 = d := by
  interval_cases d <;> decide

lemma printNat_ne_nil (n : Nat) : printNat n ≠ [] := by
  unfold printNat
  split
  · simp
  · simp [Nat.digits_ne_nil_iff_ne_zero, *]

lemma printNat_digits {n : Nat} : ∀ c ∈ printNat n, c.isDigit = true := by
  unfold printNat
  split
  · intro c hc
    simp only [List.mem_singleton] at hc
    subst hc
    decide
  · intro c hc
    simp only [List.mem_map, List.mem_reverse] at hc
    obtain ⟨d, hd, rfl⟩ := hc
    exact digitChar_isDigit (Nat.digits_lt_base (by norm_num) hd)

lemma foldl_digits_chars (le : List Nat) (h : ∀ d ∈ le, d < 10) (a : Nat) :
    ((le.reverse.map Nat.digitChar).foldl (fun acc c => acc * 10 + (c.toNat - 48)) a) =
      a * 10 ^ le.length + Nat.ofDigits 10 le := by
  induction le generalizing a with
  | nil => simp
  | cons d ds ih =>
    have hd : d < 10 := h d (by simp)
    have hds : ∀ x ∈ ds, x < 10 := fun x hx => h x (by simp [hx])
    simp only [List.reverse_cons, List.map_append, List.map_cons, List.map_nil,
      List.foldl_append, List.foldl_cons, List.foldl_nil]
    rw [ih hds, digitChar_val hd]
    simp only [Nat.ofDigits_cons, List.length_cons, pow_succ]
    ring

lemma digitsVal_printNat (n : Nat) : digitsVal (printNat n) = n := by
  unfold printNat
  split
  · subst n
    decide
  · unfold digitsVal
    rw [foldl_digits_chars (Nat.digits 10 n) (fun d hd => Nat.digits_lt_base (by norm_num) hd) 0]
    simp [Nat.ofDigits_digits]


lemma takeWhile_digits (ds rest : List Char) (hds : ∀ c ∈ ds, c.isDigit = true)
    (hrest : noDigitHead rest) :
    (ds ++ rest).takeWhile Char.isDigit = ds ∧
      (ds ++ rest).dropWhile Char.isDigit = rest := by
  induction ds with
  | nil =>
    cases rest with
    | nil => simp
    | cons r rs =>
      have hr : r.isDigit = false := hrest r rfl
      simp [List.takeWhile_cons, List.dropWhile_cons, hr]
  | cons c cs ih =>
    have hc : c.isDigit = true := hds c (by simp)
    have hcs : ∀ x ∈ cs, x.isDigit = true := fun x hx => hds x (by simp [hx])
    obtain ⟨h1, h2⟩ := ih hcs
    simp [List.takeWhile_cons, List.dropWhile_cons, hc, h1, h2]

lemma parseNatCs_print (n : Nat) (rest : List Char) (h : noDigitHead rest) :
    parseNatCs (printNat n ++ rest) = some (n, rest) := by
  obtain ⟨h1, h2⟩ := takeWhile_digits (printNat n) rest printNat_digits h
  simp [parseNatCs, h1, h2, digitsVal_printNat, List.isEmpty_iff, printNat_ne_nil n]

lemma parseNumCs_print (n : Int) (rest : List Char) (h : noDigitHead rest) :
    parseNumCs (printInt n ++ rest) = some (n, rest) := by
  by_cases hn : n < 0
  · rw [show printInt n = '-' :: printNat n.natAbs from by simp [printInt, hn]]
    rw [show ('-' :: printNat n.natAbs) ++ rest = '-' :: (printNat n.natAbs ++ rest) from rfl]
    simp only [parseNumCs, if_pos rfl]
    rw [parseNatCs_print n.natAbs rest h]
    show some ((-((n.natAbs : Nat) : Int), rest)) = some (n, rest)
    rw [show -((n.natAbs : Nat) : Int) = n from by omega]
  · rw [show printInt n = printNat n.natAbs from by simp [printInt, hn]]
    obtain ⟨c, cs, hpn⟩ := List.exists_cons_of_ne_nil (printNat_ne_nil n.natAbs)
    have hcdig : c.isDigit = true := by
      apply printNat_digits (n := n.natAbs)
      rw [hpn]
      simp
    have hcne : c ≠ '-' := by
      intro he
      rw [he] at hcdig
      exact absurd hcdig (by decide)
    rw [hpn, show (c :: cs) ++ rest = c :: (cs ++ rest) from rfl]
    simp only [parseNumCs, if_neg hcne]
    rw [show c :: (cs ++ rest) = (c :: cs) ++ rest from rfl, ← hpn]
    rw [parseNatCs_print n.natAbs rest h]
    show some ((((n.natAbs : Nat) : Int), rest)) = some (n, rest)
    rw [show ((n.natAbs : Nat) : Int) = n from by omega]

lemma printJson_head (v : Json) :
    ∃ c cs, printJson v = c :: cs ∧ isWs c = false ∧ c ≠ ']' ∧ c ≠ rbrace ∧ c ≠ ',' := by
  cases v with
  | null =>
    exact ⟨'n', ['u', 'l', 'l'], by simp [printJson, nullChars], by decide, by decide,
      by decide, by decide⟩
  | bool b =>
    cases b with
    | true =>
      exact ⟨'t', ['r', 'u', 'e'], by simp [printJson, trueChars], by decide, by decide,
        by decide, by decide⟩
    | false =>
      exact ⟨'f', ['a', 'l', 's', 'e'], by simp [printJson, falseChars], by decide, by decide,
        by decide, by decide⟩
  | num n =>
    by_cases hn : n < 0
    · exact ⟨'-', printNat n.natAbs, by simp [printJson, printInt, hn], by decide, by decide,
        by decide, by decide⟩
    · obtain ⟨c, cs, hpn⟩ := List.exists_cons_of_ne_nil (printNat_ne_nil n.natAbs)
      have hcdig : c.isDigit = true := by
        apply printNat_digits (n := n.natAbs)
        rw [hpn]
        simp
      obtain ⟨hw, _, _, _, _, _, _, h8, h9, h10, _, _⟩ := digit_props hcdig
      exact ⟨c, cs, by simp [printJson, printInt, hn, hpn], hw, h8, h9, h10⟩
  | str s =>
    exact ⟨'"', escList s.toList ++ ['"'], by simp [printJson, printStr, String.toList],
      by decide, by decide, by decide, by decide⟩
  | arr xs =>
    cases xs with
    | nil =>
      exact ⟨'[', [']'], by simp [printJson], by decide, by decide, by decide, by decide⟩
    | cons hd tl =>
      exact ⟨'[', printJson hd ++ (printArrTail tl ++ [']']), by simp [printJson], by decide,
        by decide, by decide, by decide⟩
  | obj fs =>
    cases fs with
    | nil =>
      exact ⟨lbrace, [rbrace], by simp [printJson], by decide, by decide, by decide, by decide⟩
    | cons k v tl =>
      exact ⟨lbrace, printField k v ++ (printObjTail tl ++ [rbrace]), by simp [printJson],
        by decide, by decide, by decide, by decide⟩


lemma jsize_pos (v : Json) : 1 ≤ jsize v := by
  cases v <;> simp [jsize]

lemma fuel_succ_of_pos {fuel : Nat} (h : 1 ≤ fuel) : ∃ f, fuel = f + 1 :=
  ⟨fuel - 1, by omega⟩

lemma printField_cons (k : String) (v : Json) (y : List Char) :
    printField k v ++ y = '"' :: (escList k.toList ++ '"' :: ':' :: (printJson v ++ y)) := by
  simp [printField, printStr]

theorem parse_print_aux (fuel : Nat) :
    (∀ v rest, jsize v ≤ fuel → noDigitHead rest →
        parseValue fuel (printJson v ++ rest) = some (v, rest)) ∧
    (∀ hd tl rest, jsizeA (JsonArr.cons hd tl) ≤ fuel →
        parseArrItems fuel ((printJson hd ++ printArrTail tl) ++ ']' :: rest) =
          some (JsonArr.cons hd tl, rest)) ∧
    (∀ k v tl rest, jsizeO (JsonObj.cons k v tl) ≤ fuel →
        parseObjItems fuel ((printField k v ++ printObjTail tl) ++ rbrace :: rest) =
          some (JsonObj.cons k v tl, rest)) := by
  induction fuel with
  | zero =>
    refine ⟨?_, ?_, ?_⟩
    · intro v rest hf hr
      have := jsize_pos v
      omega
    · intro hd tl rest hf
      simp only [jsizeA] at hf
      omega
    · intro k v tl rest hf
      simp only [jsizeO] at hf
      omega
  | succ f ih =>
    obtain ⟨ihV, ihA, ihO⟩ := ih
    refine ⟨?_, ?_, ?_⟩
    · intro v rest hf hr
      cases v with
      | null =>
        rw [show printJson Json.null ++ rest = 'n' :: 'u' :: 'l' :: 'l' :: rest from by
          simp [printJson, nullChars]]
        simp only [parseValue]
        rw [skipWs_cons (by decide)]
        simp
      | bool b =>
        cases b with
        | true =>
          rw [show printJson (Json.bool true) ++ rest = 't' :: 'r' :: 'u' :: 'e' :: rest from by
            simp [printJson, trueChars]]
          simp only [parseValue]
          rw [skipWs_cons (by decide)]
          simp
        | false =>
          rw [show printJson (Json.bool false) ++ rest =
            'f' :: 'a' :: 'l' :: 's' :: 'e' :: rest from by simp [printJson, falseChars]]
          simp only [parseValue]
          rw [skipWs_cons (by decide)]
          simp
      | num n =>
        by_cases hn : n < 0
        · rw [show printJson (Json.num n) ++ rest = '-' :: (printNat n.natAbs ++ rest) from by
            simp [printJson, printInt, hn]]
          simp only [parseValue]
          rw [skipWs_cons (by decide)]
          dsimp only
          rw [if_neg (by decide), if_neg (by decide), if_neg (by decide), if_neg (by decide),
            if_neg (by decide), if_neg (by decide), if_pos (by decide)]
          rw [show '-' :: (printNat n.natAbs ++ rest) = printInt n ++ rest from by
            simp [printInt, hn]]
          rw [parseNumCs_print n rest hr]
        · obtain ⟨c, cs, hpn⟩ := List.exists_cons_of_ne_nil (printNat_ne_nil n.natAbs)
          have hcdig : c.isDigit = true := by
            apply printNat_digits (n := n.natAbs)
            rw [hpn]
            simp
          obtain ⟨hw, d1, d2, d3, d4, d5, d6, _, _, _, _, _⟩ := digit_props hcdig
          have hpj : printJson (Json.num n) ++ rest = c :: (cs ++ rest) := by
            simp [printJson, printInt, hn, hpn]
          rw [hpj]
          simp only [parseValue]
          rw [skipWs_cons hw]
          dsimp only
          rw [if_neg d1, if_neg d2, if_neg d3, if_neg d4, if_neg d5, if_neg d6,
            if_pos (by simp [hcdig])]
          rw [show c :: (cs ++ rest) = (c :: cs) ++ rest from rfl, ← hpn]
          rw [show printNat n.natAbs ++ rest = printInt n ++ rest from by simp [printInt, hn]]
          rw [parseNumCs_print n rest hr]
      | str s =>
        rw [show printJson (Json.str s) ++ rest = '"' :: (escList s.toList ++ '"' :: rest) from by
          simp [printJson, printStr]]
        simp only [parseValue]
        rw [skipWs_cons (by decide)]
        dsimp only
        rw [parseStrAux_esc]
        rw [if_neg (by decide), if_neg (by decide), if_neg (by decide), if_pos rfl]
        rfl
      | arr xs =>
        cases xs with
        | nil =>
          rw [show printJson (Json.arr JsonArr.nil) ++ rest = '[' :: ']' :: rest from by
            simp [printJson]]
          simp only [parseValue]
          rw [skipWs_cons (by decide)]
          dsimp only
          rw [skipWs_cons (by decide)]
          simp
        | cons hd tl =>
          simp only [jsize, jsizeA] at hf
          obtain ⟨c0, cs0, hhd, hw0, hne0r, hne0b, hne0c⟩ := printJson_head hd
          rw [show printJson (Json.arr (JsonArr.cons hd tl)) ++ rest =
            '[' :: (printJson hd ++ (printArrTail tl ++ ']' :: rest)) from by simp [printJson]]
          simp only [parseValue]
          rw [skipWs_cons (by decide)]
          dsimp only
          rw [hhd, List.cons_append, skipWs_cons hw0]
          dsimp only
          rw [if_neg hne0r]
          rw [← List.cons_append, ← hhd, ← List.append_assoc]
          rw [ihA hd tl rest (by simp only [jsizeA]; omega)]
          simp
      | obj fs =>
        cases fs with
        | nil =>
          rw [show printJson (Json.obj JsonObj.nil) ++ rest = lbrace :: rbrace :: rest from by
            simp [printJson]]
          simp only [parseValue]
          rw [skipWs_cons (by decide)]
          dsimp only
          rw [skipWs_cons (by decide)]
          dsimp only
          rw [if_neg (by decide), if_neg (by decide), if_neg (by decide), if_neg (by decide),
            if_neg (by decide), if_pos rfl, if_pos rfl]
        | cons k v tl =>
          simp only [jsize, jsizeO] at hf
          rw [show printJson (Json.obj (JsonObj.cons k v tl)) ++ rest =
            lbrace :: ((printField k v ++ printObjTail tl) ++ rbrace :: rest) from by
              simp [printJson]]
          simp only [parseValue]
          rw [skipWs_cons (by decide)]
          dsimp only
          rw [List.append_assoc, printField_cons, skipWs_cons (by decide)]
          dsimp only
          rw [← printField_cons, ← List.append_assoc]
          rw [ihO k v tl rest (by simp only [jsizeO]; omega)]
          rw [if_neg (by decide), if_neg (by decide), if_neg (by decide), if_neg (by decide),
            if_neg (by decide), if_pos rfl, if_neg (by decide)]
    · intro hd tl rest hf
      simp only [jsizeA] at hf
      simp only [parseArrItems]
      rw [List.append_assoc]
      have hY : noDigitHead (printArrTail tl ++ ']' :: rest) := by
        cases tl with
        | nil =>
          intro c hc
          rw [show printArrTail JsonArr.nil ++ ']' :: rest = ']' :: rest from by
            simp [printArrTail]] at hc
          simp only [List.head?_cons, Option.some.injEq] at hc
          subst hc
          decide
        | cons hd2 tl2 =>
          intro c hc
          rw [show printArrTail (JsonArr.cons hd2 tl2) ++ ']' :: rest =
            ',' :: ((printJson hd2 ++ printArrTail tl2) ++ ']' :: rest) from by
              simp [printArrTail]] at hc
          simp only [List.head?_cons, Option.some.injEq] at hc
          subst hc
          decide
      rw [ihV hd (printArrTail tl ++ ']' :: rest) (by omega) hY]
      dsimp only
      cases tl with
      | nil =>
        rw [show printArrTail JsonArr.nil ++ ']' :: rest = ']' :: rest from by
          simp [printArrTail]]
        rw [skipWs_cons (by decide)]
        simp
      | cons hd2 tl2 =>
        rw [show printArrTail (JsonArr.cons hd2 tl2) ++ ']' :: rest =
          ',' :: ((printJson hd2 ++ printArrTail tl2) ++ ']' :: rest) from by
            simp [printArrTail]]
        rw [skipWs_cons (by decide)]
        dsimp only
        simp only [jsizeA] at hf
        rw [ihA hd2 tl2 rest (by simp only [jsizeA]; omega)]
        simp
    · intro k v tl rest hf
      simp only [jsizeO] at hf
      simp only [parseObjItems]
      rw [List.append_assoc, printField_cons]
      rw [skipWs_cons (by decide)]
      dsimp only
      rw [if_pos rfl]
      rw [parseStrAux_esc]
      dsimp only
      rw [skipWs_cons (by decide)]
      dsimp only
      rw [if_pos rfl]
      have hY : noDigitHead (printObjTail tl ++ rbrace :: rest) := by
        cases tl with
        | nil =>
          intro c hc
          rw [show printObjTail JsonObj.nil ++ rbrace :: rest = rbrace :: rest from by
            simp [printObjTail]] at hc
          simp only [List.head?_cons, Option.some.injEq] at hc
          subst hc
          decide
        | cons k2 v2 tl2 =>
          intro c hc
          rw [show printObjTail (JsonObj.cons k2 v2 tl2) ++ rbrace :: rest =
            ',' :: ((printField k2 v2 ++ printObjTail tl2) ++ rbrace :: rest) from by
              simp [printObjTail]] at hc
          simp only [List.head?_cons, Option.some.injEq] at hc
          subst hc
          decide
      rw [ihV v (printObjTail tl ++ rbrace :: rest) (by omega) hY]
      dsimp only
      cases tl with
      | nil =>
        rw [show printObjTail JsonObj.nil ++ rbrace :: rest = rbrace :: rest from by
          simp [printObjTail]]
        rw [skipWs_cons (by decide)]
        dsimp only
        rw [if_neg (by decide), if_pos rfl]
        rfl
      | cons k2 v2 tl2 =>
        rw [show printObjTail (JsonObj.cons k2 v2 tl2) ++ rbrace :: rest =
          ',' :: ((printField k2 v2 ++ printObjTail tl2) ++ rbrace :: rest) from by
            simp [printObjTail]]
        rw [skipWs_cons (by decide)]
        dsimp only
        rw [if_pos rfl]
        simp only [jsizeO] at hf
        rw [ihO k2 v2 tl2 rest (by simp only [jsizeO]; omega)]
        rfl

theorem parseValue_print (v : Json) (rest : List Char) (fuel : Nat)
    (hf : jsize v ≤ fuel) (hr : noDigitHead rest) :
    parseValue fuel (printJson v ++ rest) = some (v, rest) :=
  (parse_print_aux fuel).1 v rest hf hr

lemma size_le_print_aux (n : Nat) :
    (∀ v, jsize v ≤ n → jsize v ≤ (printJson v).length) ∧
    (∀ xs, jsizeA xs ≤ n → jsizeA xs ≤ (printArrTail xs).length) ∧
    (∀ fs, jsizeO fs ≤ n → jsizeO fs ≤ (printObjTail fs).length) := by
  induction n with
  | zero =>
    refine ⟨?_, ?_, ?_⟩
    · intro v hv
      have := jsize_pos v
      omega
    · intro xs hxs
      cases xs with
      | nil => simp [jsizeA]
      | cons hd tl =>
        simp only [jsizeA] at hxs
        omega
    · intro fs hfs
      cases fs with
      | nil => simp [jsizeO]
      | cons k v tl =>
        simp only [jsizeO] at hfs
        omega
  | succ n ih =>
    obtain ⟨ihV, ihA, ihO⟩ := ih
    refine ⟨?_, ?_, ?_⟩
    · intro v hv
      cases v with
      | null => simp [jsize, printJson, nullChars]
      | bool b => cases b <;> simp [jsize, printJson, trueChars, falseChars]
      | num m =>
        have hlen : 1 ≤ (printInt m).length := by
          unfold printInt
          split
          · simp
          · exact List.length_pos.mpr (printNat_ne_nil m.natAbs)
        simp only [jsize, printJson]
        omega
      | str s => simp [jsize, printJson, printStr]
      | arr xs =>
        cases xs with
        | nil => simp [jsize, jsizeA, printJson]
        | cons hd tl =>
          simp only [jsize, jsizeA] at hv ⊢
          have h1 : jsize hd ≤ (printJson hd).length := ihV hd (by omega)
          have h2 : jsizeA tl ≤ (printArrTail tl).length := ihA tl (by omega)
          simp only [printJson, List.length_cons, List.length_append, List.length_singleton]
          omega
      | obj fs =>
        cases fs with
        | nil => simp [jsize, jsizeO, printJson]
        | cons k v tl =>
          simp only [jsize, jsizeO] at hv ⊢
          have h1 : jsize v ≤ (printJson v).length := ihV v (by omega)
          have h2 : jsizeO tl ≤ (printObjTail tl).length := ihO tl (by omega)
          simp only [printJson, printField, List.length_cons, List.length_append,
            List.length_singleton]
          omega
    · intro xs hxs
      cases xs with
      | nil => simp [jsizeA]
      | cons hd tl =>
        simp only [jsizeA] at hxs ⊢
        have h1 : jsize hd ≤ (printJson hd).length := ihV hd (by omega)
        have h2 : jsizeA tl ≤ (printArrTail tl).length := ihA tl (by omega)
        simp only [printArrTail, List.length_cons, List.length_append]
        omega
    · intro fs hfs
      cases fs with
      | nil => simp [jsizeO]
      | cons k v tl =>
        simp only [jsizeO] at hfs ⊢
        have h1 : jsize v ≤ (printJson v).length := ihV v (by omega)
        have h2 : jsizeO tl ≤ (printObjTail tl).length := ihO tl (by omega)
        simp only [printObjTail, printField, List.length_cons, List.length_append]
        omega

lemma jsize_le_printJson (v : Json) : jsize v ≤ (printJson v).length :=
  (size_le_print_aux (jsize v)).1 v le_rfl

/-- The decoder inverts the encoder on any JSON value. -/
theorem jsonParse_print (v : Json) : jsonParse (String.mk (printJson v)) = some v := by
  unfold jsonParse
  rw [show (String.mk (printJson v)).toList = printJson v from rfl]
  rw [show (String.mk (printJson v)).length = (printJson v).length from rfl]
  have h := parseValue_print v [] ((printJson v).length + 1)
    (by have := jsize_le_printJson v; omega)
    (by intro c hc; simp at hc)
  rw [List.append_nil] at h
  rw [h]
  simp [skipWs]

lemma braceSpanList_wrap (mid : List Char) :
    braceSpanList (lbrace :: mid ++ [rbrace]) = some (lbrace :: mid ++ [rbrace]) := by
  have hfst : (lbrace :: mid ++ [rbrace]).findIdx? (· == lbrace) = some 0 := by
    simp [List.findIdx?_cons]
  have hsnd : ((lbrace :: mid ++ [rbrace]).reverse).findIdx? (· == rbrace) = some 0 := by
    rw [show (lbrace :: mid ++ [rbrace]).reverse = rbrace :: (mid.reverse ++ [lbrace]) from by
      simp]
    simp [List.findIdx?_cons]
  unfold braceSpanList
  rw [hfst, hsnd]
  dsimp only
  rw [if_pos (by simp only [List.length_cons, List.length_append, List.length_singleton]; omega)]
  rw [List.drop_zero]
  rw [List.take_of_length_le
    (by simp only [List.length_cons, List.length_append, List.length_singleton]; omega)]

lemma braceSpan_print_obj (fs : JsonObj) :
    braceSpan (String.mk (printJson (Json.obj fs))) =
      some (String.mk (printJson (Json.obj fs))) := by
  unfold braceSpan
  rw [show (String.mk (printJson (Json.obj fs))).toList = printJson (Json.obj fs) from rfl]
  cases fs with
  | nil =>
    rw [show printJson (Json.obj JsonObj.nil) = lbrace :: ([] : List Char) ++ [rbrace] from by
      simp [printJson]]
    rw [braceSpanList_wrap]
    rfl
  | cons k v tl =>
    rw [show printJson (Json.obj (JsonObj.cons k v tl)) =
      lbrace :: (printField k v ++ printObjTail tl) ++ [rbrace] from by simp [printJson]]
    rw [braceSpanList_wrap]
    rfl

/-- Round trip of the whole evaluation-extraction pipeline: serializing an
object holding the evaluations array and extracting it returns the array. -/
theorem extractEvaluations_serialize (es : JsonArr) :
    extractEvaluations (serializeEvaluations es) = Json.arr es := by
  unfold serializeEvaluations extractEvaluations
  rw [braceSpan_print_obj (JsonObj.cons "evaluations" (Json.arr es) JsonObj.nil)]
  dsimp only
  rw [jsonParse_print]
  simp [jsonField, objLookup, jsTruthy]


/-! ## Lemmas about the accessibility engine -/

lemma mem_if_singleton {α : Type} {c : Prop} [Decidable c] {a b : α} :
    (a ∈ if c then [b] else ([] : List α)) ↔ c ∧ a = b := by
  split <;> simp_all

lemma filter_filterMap_length_pos {α β : Type} (l : List α) (sel : α → Bool) (p : α → Bool)
    (f : α → β) :
    (0 < ((l.filter sel).filterMap
        (fun x => if p x then some (f x) else none)).length) ↔
      ∃ x ∈ l, sel x = true ∧ p x = true := by
  rw [List.length_pos, Ne, List.filterMap_eq_nil]
  push_neg
  constructor
  · rintro ⟨x, hx, hne⟩
    rw [List.mem_filter] at hx
    refine ⟨x, hx.1, hx.2, ?_⟩
    by_contra hp
    rw [Bool.not_eq_true] at hp
    simp [hp] at hne
  · rintro ⟨x, hx, hsel, hp⟩
    exact ⟨x, List.mem_filter.mpr ⟨hx, hsel⟩, by simp [hp]⟩

namespace ViewportTest

lemma analyze_types (dom : List Element) (device : DeviceConfig) :
    (analyzeAccessibility dom device).map (fun i => i.type) =
      findingTypes (runA11yChecks dom device.viewport.isMobile) := by
  simp only [analyzeAccessibility, findingTypes, List.map_append,
    apply_ite (List.map (fun i : AccessibilityIssue => i.type)), List.map_cons, List.map_nil]

lemma mem_findingTypes (checks : A11yCheckResults) (t : String) :
    t ∈ findingTypes checks ↔
      (0 < checks.missingAltText.length ∧ t = "missing-alt-text") ∨
      (0 < checks.smallTouchTargets.length ∧ t = "small-touch-target") ∨
      (0 < checks.missingLabels.length ∧ t = "missing-label") ∨
      (checks.missingLandmarks = true ∧ t = "missing-landmarks") ∨
      (checks.missingHeadings = true ∧ t = "missing-headings") := by
  simp only [findingTypes, List.mem_append, mem_if_singleton]
  tauto

lemma exists_type_mem (l : List AccessibilityIssue) (t : String) :
    (∃ i ∈ l, i.type = t) ↔ t ∈ l.map (fun i => i.type) := by
  simp [List.mem_map]

lemma smallTouch_pos_iff (dom : List Element) (m : Bool) :
    0 < (runA11yChecks dom m).smallTouchTargets.length ↔
      (m = true ∧ ∃ el ∈ dom, interactiveElement el = true ∧
        (el.width < 44 ∨ el.height < 44)) := by
  cases m with
  | false => simp [runA11yChecks]
  | true =>
    have h : (runA11yChecks dom true).smallTouchTargets = smallTouchList dom := by
      simp [runA11yChecks]
    rw [h, smallTouchList, filter_filterMap_length_pos]
    simp only [true_and]
    constructor
    · rintro ⟨el, hel, hint, hsz⟩
      rw [Bool.or_eq_true, decide_eq_true_eq, decide_eq_true_eq] at hsz
      exact ⟨el, hel, hint, hsz⟩
    · rintro ⟨el, hel, hint, hsz⟩
      refine ⟨el, hel, hint, ?_⟩
      rw [Bool.or_eq_true, decide_eq_true_eq, decide_eq_true_eq]
      exact hsz

lemma missingLabel_pos_iff (dom : List Element) (m : Bool) :
    0 < (runA11yChecks dom m).missingLabels.length ↔
      ∃ el ∈ dom, isFormControl el = true ∧ hasLabelFor dom el = false ∧
        attrTruthy el "aria-label" = false ∧ attrTruthy el "aria-labelledby" = false := by
  have h : (runA11yChecks dom m).missingLabels = missingLabelList dom := by
    simp [runA11yChecks]
  rw [h, missingLabelList, filter_filterMap_length_pos]
  constructor
  · rintro ⟨el, hel, hfc, hmiss⟩
    simp only [Bool.and_eq_true, Bool.not_eq_true'] at hmiss
    exact ⟨el, hel, hfc, hmiss.1.1, hmiss.1.2, hmiss.2⟩
  · rintro ⟨el, hel, hfc, h1, h2, h3⟩
    refine ⟨el, hel, hfc, ?_⟩
    simp only [Bool.and_eq_true, Bool.not_eq_true']
    exact ⟨⟨h1, h2⟩, h3⟩

end ViewportTest

/-! ## The claims -/

/-- Claim C1, counterexample.  The spec's readiness claim fails on the code
at two concrete inputs: an empty after-evaluation list (every device lacks
an after-evaluation, yet the code reports overall readiness), and a list of
four good evaluations whose `accessibility_status` is absent (the spec
counts absent as good, the code counts the devices as not ready). -/
theorem C1_counterexample :
    (¬ FullWorkflow.overallReadySpecClaim []) ∧
    (¬ FullWorkflow.overallReadySpecClaim
      [⟨"iPhone 15 Pro", "", "good", "", none, none, none⟩,
       ⟨"Android (Pixel 7)", "", "good", "", none, none, none⟩,
       ⟨"Laptop 13-inch", "", "good", "", none, none, none⟩,
       ⟨"Ultrawide", "", "good", "", none, none, none⟩]) := by
  unfold FullWorkflow.overallReadySpecClaim
  exact ⟨by decide, by decide⟩

/-- Claim C1, amended.  The comparison's overall readiness verdict is true
iff every evaluation in the after-evaluation list has status `good` and
`accessibility_status` present and equal to `"good"`; devices lacking an
after-evaluation are ignored (in particular an empty list yields a ready
verdict). -/
theorem C1_amended_ok (afterEvals : List FullWorkflow.DeviceEvaluation) :
    FullWorkflow.overallReady afterEvals = true ↔
      ∀ e ∈ afterEvals, e.status = "good" ∧ e.accessibility_status = some "good" := by
  simp only [FullWorkflow.overallReady, FullWorkflow.remainingEvals, beq_iff_eq,
    List.length_eq_zero, List.filter_eq_nil, Bool.or_eq_true, bne_iff_ne, not_or, not_ne_iff]

/-- Claim C1, witness: the amended equivalence applied at the empty list. -/
theorem C1_witness : FullWorkflow.overallReady [] = true :=
  (C1_amended_ok []).mpr (fun e he => absurd he (List.not_mem_nil e))

/-- Claim C2, counterexample.  A device with an absent evaluation is not
presented as a distinct unknown state: the report renders it with the very
icon used for a broken device. -/
theorem C2_counterexample : ¬ FullWorkflow.distinctUnknownClaim := by
  intro h
  exact h ⟨"iPhone 15 Pro", "", "broken", "", none, none, none⟩ rfl (by decide)

/-- Claim C2, amended.  The status transition pairs the icons derived from
the before- and after-evaluation statuses, where `good` renders as ✅,
`minor_issues` as ⚠️, and everything else — including `broken`, any
unrecognized status, and an absent evaluation — as ❌; an absent evaluation
is therefore rendered identically to a broken one, not as a distinct
unknown state. -/
theorem C2_amended_ok :
    (∀ b a : Option FullWorkflow.DeviceEvaluation,
      FullWorkflow.statusTransition b a =
        FullWorkflow.statusIcon b ++ " → " ++ FullWorkflow.statusIcon a) ∧
    FullWorkflow.statusIcon none = "❌" ∧
    (∀ e : FullWorkflow.DeviceEvaluation, e.status = "good" →
      FullWorkflow.statusIcon (some e) = "✅") ∧
    (∀ e : FullWorkflow.DeviceEvaluation, e.status = "minor_issues" →
      FullWorkflow.statusIcon (some e) = "⚠️") ∧
    (∀ e : FullWorkflow.DeviceEvaluation, e.status ≠ "good" → e.status ≠ "minor_issues" →
      FullWorkflow.statusIcon (some e) = "❌") := by
  refine ⟨fun b a => rfl, rfl, ?_, ?_, ?_⟩
  · intro e he
    unfold FullWorkflow.statusIcon
    simp [he]
  · intro e he
    unfold FullWorkflow.statusIcon
    simp [he]
  · intro e h1 h2
    unfold FullWorkflow.statusIcon
    simp only [Option.map_some']
    rw [if_neg (by simp [h1]), if_neg (by simp [h2])]

/-- Claim C2, witness: an unrecognized status renders as the broken icon. -/
theorem C2_witness :
    FullWorkflow.statusIcon (some ⟨"X", "", "odd", "", none, none, none⟩) = "❌" :=
  C2_amended_ok.2.2.2.2 ⟨"X", "", "odd", "", none, none, none⟩ (by decide) (by decide)

/-- Claim C3.  The evaluation parser never raises past its boundary (it is a
total function returning a pair); whenever the text has no brace pair, or
the extracted span is not decodable JSON, or the decoded value lacks an
`evaluations` field, the evaluations component is the empty list, and in
every case the raw response text is retained unchanged. -/
theorem C3_ok (raw : String) :
    ((braceSpan raw = none ∨
      (∃ span, braceSpan raw = some span ∧ jsonParse span = none) ∨
      (∃ span v, braceSpan raw = some span ∧ jsonParse span = some v ∧
        jsonField v "evaluations" = none)) →
      (parseEvaluations raw).1 = emptyEvals) ∧
    (parseEvaluations raw).2 = raw := by
  refine ⟨?_, rfl⟩
  rintro (h | ⟨span, hs, hp⟩ | ⟨span, v, hs, hp, hf⟩) <;>
    simp [parseEvaluations, extractEvaluations, *]

/-- Claim C3, witness: a brace-free text parses to the empty evaluations
list with the raw text retained. -/
theorem C3_witness :
    (parseEvaluations "not json").1 = emptyEvals ∧
      (parseEvaluations "not json").2 = "not json" :=
  ⟨(C3_ok "not json").1 (Or.inl rfl), (C3_ok "not json").2⟩

/-- Claim C4.  Round trip: serializing an object holding any evaluations
array and parsing the text returns exactly that array (with the raw text
retained); and the greedy brace-span extraction recovers JSON wrapped in
prose, so the spec's scenario text parses to exactly one evaluation with
device "A" and status "good". -/
theorem C4_ok :
    (∀ es : JsonArr, parseEvaluations (serializeEvaluations es) =
      (Json.arr es, serializeEvaluations es)) ∧
    (parseEvaluations scenarioResponse).1 =
      Json.arr (JsonArr.cons (Json.obj (JsonObj.cons "device" (Json.str "A")
        (JsonObj.cons "status" (Json.str "good") JsonObj.nil))) JsonArr.nil) := by
  refine ⟨?_, rfl⟩
  intro es
  unfold parseEvaluations
  rw [extractEvaluations_serialize]

/-- Claim C5.  For every pair of issue lists, `fixedIssues` equals exactly
the members of the before-issues not present in the after-issues (in order,
exact string equality), `remainingIssues` is the after-issues verbatim,
the fixed issues are disjoint from the after-issues, and the spec's
scenario evaluates as stated. -/
theorem C5_ok (bs as : List String) :
    FullWorkflow.fixedIssues (some bs) (some as) =
      some (FullWorkflow.fixedIssuesSpec bs as) ∧
    FullWorkflow.remainingIssues (some as) = some as ∧
    (∀ i ∈ FullWorkflow.fixedIssuesSpec bs as, i ∉ as) ∧
    FullWorkflow.fixedIssues (some ["fix X", "fix Y"]) (some ["fix Y"]) = some ["fix X"] ∧
    FullWorkflow.remainingIssues (some ["fix Y"]) = some ["fix Y"] := by
  refine ⟨?_, rfl, ?_, by decide, rfl⟩
  · unfold FullWorkflow.fixedIssues FullWorkflow.fixedIssuesSpec FullWorkflow.includesOpt
    simp only [Option.map_some', Option.some.injEq]
    apply List.filter_congr
    intro i _
    by_cases hmem : i ∈ as <;> simp [hmem]
  · intro i hi
    unfold FullWorkflow.fixedIssuesSpec at hi
    rw [List.mem_filter] at hi
    simpa using hi.2

/-- Claim C5, witness: in the spec's scenario the fixed issue is not among
the after-issues. -/
theorem C5_witness : "fix X" ∉ (["fix Y"] : List String) :=
  (C5_ok ["fix X", "fix Y"] ["fix Y"]).2.2.1 "fix X" (by decide)

/-- Claim C6.  One capture pass over any device registry produces exactly
one record per profile, with the device names equal to the registry names
in registry order; when the registry names are distinct (the registry
invariant) so are the capture names. -/
theorem C6_ok (devices : List DeviceConfig)
    (audit : DeviceConfig → Option (List ViewportTest.AccessibilityIssue)) :
    (ViewportTest.takeMultiViewportScreenshots devices audit).length = devices.length ∧
    (ViewportTest.takeMultiViewportScreenshots devices audit).map (fun r => r.device) =
      devices.map (fun d => d.name) ∧
    ((devices.map (fun d => d.name)).Nodup →
      ((ViewportTest.takeMultiViewportScreenshots devices audit).map
        (fun r => r.device)).Nodup) := by
  have hm : (ViewportTest.takeMultiViewportScreenshots devices audit).map (fun r => r.device) =
      devices.map (fun d => d.name) := by
    unfold ViewportTest.takeMultiViewportScreenshots
    rw [List.map_map]
    rfl
  refine ⟨?_, hm, fun h => ?_⟩
  · unfold ViewportTest.takeMultiViewportScreenshots
    rw [List.length_map]
  · rw [hm]
    exact h

/-- Claim C6, witness: on the actual registry with the audit disabled the
capture names are distinct. -/
theorem C6_witness :
    ((ViewportTest.takeMultiViewportScreenshots ViewportTest.DEVICES
      (fun _ => none)).map (fun r => r.device)).Nodup :=
  (C6_ok ViewportTest.DEVICES (fun _ => none)).2.2 (by decide)

/-- Claim C7.  The engine emits findings in the fixed rule order
missing-alt-text, small-touch-target, missing-label, missing-landmarks,
missing-headings, each present exactly when its trigger condition is
nonempty or true (never a zero-count finding); and the spec's scenario —
an alt-less image and a 30x30 button on a mobile profile with main, nav
and an h1 present — yields exactly those two findings in that order. -/
theorem C7_ok :
    (∀ (dom : List ViewportTest.Element) (device : DeviceConfig),
      (ViewportTest.analyzeAccessibility dom device).map (fun i => i.type) =
        ViewportTest.findingTypes
          (ViewportTest.runA11yChecks dom device.viewport.isMobile)) ∧
    (ViewportTest.analyzeAccessibility
      [⟨"img", [("src", "hero.png")], "", 0, 0⟩,
       ⟨"button", [], "Buy", 30, 30⟩,
       ⟨"main", [], "", 0, 0⟩,
       ⟨"nav", [], "", 0, 0⟩,
       ⟨"h1", [], "Title", 0, 0⟩]
      ⟨"iPhone 15 Pro", ⟨393, 852, 1, true, true⟩, some iPhoneUserAgent⟩).map
        (fun i => i.type) = ["missing-alt-text", "small-touch-target"] :=
  ⟨ViewportTest.analyze_types, by decide⟩

/-- Claim C8.  A small-touch-target finding is emitted iff the profile is
mobile and some interactive element (button, link, input, select, or
role=button) has a rendered box with width or height below 44; in
particular it never appears on a non-mobile profile. -/
theorem C8_ok (dom : List ViewportTest.Element) (device : DeviceConfig) :
    (∃ i ∈ ViewportTest.analyzeAccessibility dom device, i.type = "small-touch-target") ↔
      (device.viewport.isMobile = true ∧
        ∃ el ∈ dom, ViewportTest.interactiveElement el = true ∧
          (el.width < 44 ∨ el.height < 44)) := by
  rw [ViewportTest.exists_type_mem, ViewportTest.analyze_types,
    ViewportTest.mem_findingTypes,
    ← ViewportTest.smallTouch_pos_iff dom device.viewport.isMobile]
  constructor
  · rintro (⟨_, h⟩ | ⟨hc, _⟩ | ⟨_, h⟩ | ⟨_, h⟩ | ⟨_, h⟩)
    · exact absurd h (by decide)
    · exact hc
    · exact absurd h (by decide)
    · exact absurd h (by decide)
    · exact absurd h (by decide)
  · intro hc
    exact Or.inr (Or.inl ⟨hc, rfl⟩)

/-- Claim C8, witness: a 30x30 button on a mobile profile yields the
finding. -/
theorem C8_witness :
    ∃ i ∈ ViewportTest.analyzeAccessibility
      [⟨"button", [], "Buy", 30, 30⟩]
      ⟨"iPhone 15 Pro", ⟨393, 852, 1, true, true⟩, none⟩,
      i.type = "small-touch-target" :=
  (C8_ok [⟨"button", [], "Buy", 30, 30⟩]
      ⟨"iPhone 15 Pro", ⟨393, 852, 1, true, true⟩, none⟩).mpr
    ⟨rfl, ⟨"button", [], "Buy", 30, 30⟩, by decide, by decide, Or.inl (by decide)⟩

/-- Claim C9.  A missing-label finding is emitted iff some form control
(input, select, or textarea) lacks all three label mechanisms: a
`label[for]` matching its id, a (nonempty) aria-label, and a (nonempty)
aria-labelledby. -/
theorem C9_ok (dom : List ViewportTest.Element) (device : DeviceConfig) :
    (∃ i ∈ ViewportTest.analyzeAccessibility dom device, i.type = "missing-label") ↔
      ∃ el ∈ dom, ViewportTest.isFormControl el = true ∧
        ViewportTest.hasLabelFor dom el = false ∧
        ViewportTest.attrTruthy el "aria-label" = false ∧
        ViewportTest.attrTruthy el "aria-labelledby" = false := by
  rw [ViewportTest.exists_type_mem, ViewportTest.analyze_types,
    ViewportTest.mem_findingTypes,
    ← ViewportTest.missingLabel_pos_iff dom device.viewport.isMobile]
  constructor
  · rintro (⟨_, h⟩ | ⟨_, h⟩ | ⟨hc, _⟩ | ⟨_, h⟩ | ⟨_, h⟩)
    · exact absurd h (by decide)
    · exact absurd h (by decide)
    · exact hc
    · exact absurd h (by decide)
    · exact absurd h (by decide)
  · intro hc
    exact Or.inr (Or.inr (Or.inl ⟨hc, rfl⟩))

/-- Claim C9, witness: an unlabelled input yields the finding. -/
theorem C9_witness :
    ∃ i ∈ ViewportTest.analyzeAccessibility
      [⟨"input", [], "", 100, 100⟩]
      ⟨"Laptop 13-inch (1600x900)", ⟨1600, 900, 1, false, false⟩, none⟩,
      i.type = "missing-label" :=
  (C9_ok [⟨"input", [], "", 100, 100⟩]
      ⟨"Laptop 13-inch (1600x900)", ⟨1600, 900, 1, false, false⟩, none⟩).mpr
    ⟨⟨"input", [], "", 100, 100⟩, by decide, by decide, by decide, by decide, by decide⟩

/-- Claim C10.  When the after-evaluation's issues field is absent, every
issue of the before-evaluation is classified as fixed: `fixedIssues` is the
before-issues verbatim. -/
theorem C10_ok (bs : List String) :
    FullWorkflow.fixedIssues (some bs) none = some bs := by
  unfold FullWorkflow.fixedIssues FullWorkflow.includesOpt
  simp
